import Mathlib

/-!
Shallow embedding of the Zeek plugin manager interface
(src/plugin/Manager.h): the hook table, the three dispatch combination
policies, the no-subscriber fast path macros, dynamic-plugin
activation, the component query and plugin activation requests.
Operations whose bodies live only in the absent Manager.cc are
modelled from the specification; their doc comments say so explicitly.
-/

namespace ZeekPlugin

/-- The fixed enumeration of hook dispatch points (`HookType`, declared in
Plugin.h and used throughout Manager.h). -/
inductive HookType where
  | loadFile
  | callFunction
  | queueEvent
  | updateNetworkTime
  | setupAnalyzerTree
  | drainEvents
  | broObjDtor
  | logInit
  | logWrite
  | reporter
deriving DecidableEq

/-- A plugin is identified by its (non-owning) `Plugin*` pointer; modelled
as a numeric identity. -/
abbrev Plugin := Nat

/-- The `hook_list` type (Manager.h line 433): a list of
(priority, plugin) pairs for one hook type. -/
abbrev hook_list := List (Int × Plugin)

/-- The `hooks` array (Manager.h line 437), indexed by `HookType`; an
entry is `none` exactly when the C++ field holds a null pointer. -/
abbrev Hooks := HookType → Option hook_list

/-- `Manager::HavePluginForHook` (Manager.h lines 164-168): the inline
presence check `hooks[hook] != nullptr`. -/
def HavePluginForHook (s : Hooks) (h : HookType) : Bool :=
  (s h).isSome

/-- The registration list currently stored for a hook type; an absent
(null) entry reads as the empty list. -/
def hookListOf (s : Hooks) (h : HookType) : hook_list :=
  (s h).getD []

/-- Modelled from the spec: the ordered insertion performed by
`Manager::EnableHook` (body in the absent Manager.cc).  The new
registration is placed after every existing registration of greater or
equal priority, keeping the list sorted by descending priority with
first-registered-first-run order among equal priorities. -/
def insertReg (pri : Int) (p : Plugin) : hook_list → hook_list
  | [] => [(pri, p)]
  | (q, r) :: rest =>
      if pri ≤ q then (q, r) :: insertReg pri p rest
      else (pri, p) :: (q, r) :: rest

/-- Modelled from the spec: `Manager::EnableHook` (declared Manager.h
lines 178-187, body in the absent Manager.cc) inserts a registration so
the hook type's list stays sorted per the ordering invariant, creating
the list when the slot was null. -/
def EnableHook (h : HookType) (p : Plugin) (pri : Int) (s : Hooks) : Hooks :=
  fun g => if g = h then some (insertReg pri p (hookListOf s h)) else s g

/-- Modelled from the spec: `Manager::DisableHook` (declared Manager.h
lines 189-196, body in the absent Manager.cc) removes the plugin's
registration; if the list empties, the presence flag is cleared (the
slot is nulled). -/
def DisableHook (h : HookType) (p : Plugin) (s : Hooks) : Hooks :=
  fun g =>
    if g = h then
      match s h with
      | none => none
      | some l =>
          let l2 := l.filter (fun e => decide (e.2 ≠ p))
          if l2 = [] then none else some l2
    else s g

/-- One hook-table mutation: an `EnableHook` or a `DisableHook` call. -/
inductive HookOp where
  | enable (h : HookType) (p : Plugin) (pri : Int)
  | disable (h : HookType) (p : Plugin)

/-- Apply one hook-table mutation to the `hooks` array. -/
def applyOp (s : Hooks) : HookOp → Hooks
  | .enable h p pri => EnableHook h p pri s
  | .disable h p => DisableHook h p s

/-- The initial `hooks` array: every slot null. -/
def initHooks : Hooks := fun _ => none

/-- The `hooks` array reached from the initial state by a sequence of
`EnableHook` / `DisableHook` calls. -/
def runOps (ops : List HookOp) : Hooks :=
  ops.foldl applyOp initHooks

/-- Descending-priority order on registrations: a later entry's priority
is at most an earlier entry's priority. -/
def descPri (a b : Int × Plugin) : Prop := b.1 ≤ a.1

/-- Folding a sequence of (priority, plugin) `EnableHook` calls for one
hook type over the whole hook table, starting from the empty table. -/
def enableFold (h : HookType) (calls : List (Int × Plugin)) : Hooks :=
  calls.foldl (fun s c => EnableHook h c.2 c.1 s) initHooks

/-- Folding the same sequence of insertions directly over one list. -/
def insertFold : List (Int × Plugin) → hook_list → hook_list
  | [], l => l
  | c :: cs, l => insertFold cs (insertReg c.1 c.2 l)

/-- The plugins subscribed to a hook type, in dispatch (list) order. -/
def subscribersOf (s : Hooks) (h : HookType) : List Plugin :=
  (hookListOf s h).map (fun e => e.2)

/-- Modelled from the spec: the first-claim-wins iteration shared by the
load-file, call-function and queue-event dispatch loops (bodies in the
absent Manager.cc).  `resp p = some b` means plugin `p` claims the
dispatch with result `b`; `none` means it declines.  Returns the
claimed result (if any) together with the list of plugins actually
invoked, in order. -/
def firstClaim {β : Type} (resp : Plugin → Option β) : List Plugin → Option β × List Plugin
  | [] => (none, [])
  | p :: rest =>
      match resp p with
      | some b => (some b, [p])
      | none =>
          let r := firstClaim resp rest
          (r.1, p :: r.2)

/-- First-claim-wins dispatch with the hook's not-handled default. -/
def dispatchFirstClaim {β : Type} (resp : Plugin → Option β) (dflt : β)
    (subs : List Plugin) : β × List Plugin :=
  let r := firstClaim resp subs
  (r.1.getD dflt, r.2)

/-- Modelled from the spec: `Manager::HookLoadFile` (declared Manager.h
lines 225-237, body in the absent Manager.cc); first-claim-wins over
the load-file subscribers, not-handled default `-1`. -/
def HookLoadFile (s : Hooks) (resp : Plugin → Option Int) : Int × List Plugin :=
  dispatchFirstClaim resp (-1) (subscribersOf s .loadFile)

/-- Modelled from the spec: `Manager::HookQueueEvent` (declared Manager.h
lines 257-265, body in the absent Manager.cc); first-claim-wins over
the queue-event subscribers, not-handled default `false`. -/
def HookQueueEvent (s : Hooks) (resp : Plugin → Bool) : Bool × List Plugin :=
  dispatchFirstClaim (fun p => if resp p then some true else none) false
    (subscribersOf s .queueEvent)

/-- Modelled from the spec: `Manager::HookCallFunction` (declared
Manager.h lines 254-255, body in the absent Manager.cc);
first-claim-wins, returning the handled flag and the claiming plugin's
value. -/
def HookCallFunction {V : Type} (s : Hooks) (resp : Plugin → Option V) :
    (Bool × Option V) × List Plugin :=
  let r := firstClaim resp (subscribersOf s .callFunction)
  ((r.1.isSome, r.1), r.2)

/-- Modelled from the spec: the first-veto-wins iteration shared by the
log-write and report dispatch loops (bodies in the absent Manager.cc).
`resp p = true` means plugin `p` lets the action proceed; `false`
vetoes it.  Returns the overall verdict together with the plugins
actually invoked, in order. -/
def firstVeto (resp : Plugin → Bool) : List Plugin → Bool × List Plugin
  | [] => (true, [])
  | p :: rest =>
      if resp p then
        let r := firstVeto resp rest
        (r.1, p :: r.2)
      else (false, [p])

/-- Modelled from the spec: `Manager::HookLogWrite` (declared Manager.h
lines 352-356, body in the absent Manager.cc); first-veto-wins over the
log-write subscribers (`true` = write the line, `false` = skip it). -/
def HookLogWrite (s : Hooks) (resp : Plugin → Bool) : Bool × List Plugin :=
  firstVeto resp (subscribersOf s .logWrite)

/-- Modelled from the spec: `Manager::HookReporter` (declared Manager.h
lines 386-389, body in the absent Manager.cc); first-veto-wins over the
report subscribers. -/
def HookReporter (s : Hooks) (resp : Plugin → Bool) : Bool × List Plugin :=
  firstVeto resp (subscribersOf s .reporter)

/-- Modelled from the spec: the broadcast iteration shared by the
update-time, setup-analyzer-tree, drain-events, object-destroy and
log-init dispatch loops (bodies in the absent Manager.cc).  Every
subscriber is invoked; the trace records each invoked plugin with its
result, in order. -/
def broadcastRun {ρ : Type} (resp : Plugin → ρ) : List Plugin → List (Plugin × ρ)
  | [] => []
  | p :: rest => (p, resp p) :: broadcastRun resp rest

/-- Modelled from the spec: `Manager::HookUpdateNetworkTime` (declared
Manager.h lines 267-272, body in the absent Manager.cc); broadcast over
the update-time subscribers. -/
def HookUpdateNetworkTime {ρ : Type} (s : Hooks) (resp : Plugin → ρ) :
    List (Plugin × ρ) :=
  broadcastRun resp (subscribersOf s .updateNetworkTime)

/-- Modelled from the spec: `Manager::HookDrainEvents` (declared
Manager.h lines 283-286, body in the absent Manager.cc); broadcast over
the drain-events subscribers. -/
def HookDrainEvents {ρ : Type} (s : Hooks) (resp : Plugin → ρ) :
    List (Plugin × ρ) :=
  broadcastRun resp (subscribersOf s .drainEvents)

/-- Observable outcome of one result-returning hook entry point: the
result, the plugins invoked, and how many times the `MetaHookPre` /
`MetaHookPost` pair ran. -/
structure Trace (β : Type) where
  result : β
  invoked : List Plugin
  metaPre : Nat
  metaPost : Nat
deriving DecidableEq

/-- The `PLUGIN_HOOK_WITH_RESULT` macro (Manager.h lines 41-42): consult
`HavePluginForHook` first; only if it holds, run the dispatch (which,
modelled from the spec, invokes the `MetaHookPre` / `MetaHookPost` pair
once around the iteration); otherwise produce the default result with
no plugin and no meta-hook invoked. -/
def pluginHookWithResult {β : Type} (s : Hooks) (h : HookType)
    (resp : Plugin → Option β) (dflt : β) : Trace β :=
  if HavePluginForHook s h then
    let r := dispatchFirstClaim resp dflt (subscribersOf s h)
    ⟨r.1, r.2, 1, 1⟩
  else ⟨dflt, [], 0, 0⟩

/-- The `PLUGIN_HOOK_VOID` macro (Manager.h lines 28-29): consult
`HavePluginForHook` first; only if it holds, run the broadcast dispatch
(with, modelled from the spec, one `MetaHookPre` / `MetaHookPost`
pair); otherwise invoke nothing. -/
def pluginHookVoid {ρ : Type} (s : Hooks) (h : HookType)
    (resp : Plugin → ρ) : List (Plugin × ρ) × Nat × Nat :=
  if HavePluginForHook s h then
    (broadcastRun resp (subscribersOf s h), 1, 1)
  else ([], 0, 0)

/-- Outcome of one dynamic-plugin activation pass: the candidates
attempted in order, the error strings reported, and the success flag. -/
structure ActivationResult where
  attempted : List String
  errors : List String
  ok : Bool
deriving DecidableEq

/-- Modelled from the spec: the activation pass built on
`Manager::ActivateDynamicPluginInternal` (declared Manager.h line 412,
body in the absent Manager.cc).  `outcome n = none` means candidate `n`
loads successfully; `outcome n = some errs` means it fails with error
strings `errs`.  On the first failure the pass stops immediately,
reporting the accumulated errors. -/
def activatePass (outcome : String → Option (List String)) :
    List String → ActivationResult
  | [] => ⟨[], [], true⟩
  | n :: rest =>
      match outcome n with
      | none =>
          let r := activatePass outcome rest
          ⟨n :: r.attempted, r.errors, r.ok⟩
      | some errs => ⟨[n], errs, false⟩

/-- Loader state: `dynamic_plugins` (Manager.h lines 420-422, the
discovered name-to-directory map) and `requested_plugins` (Manager.h
lines 417-418, the set of names requested via `RequestPlugin`). -/
structure LoaderState where
  dynamic_plugins : List (String × String)
  requested_plugins : Finset String
deriving DecidableEq

/-- `Manager::RequestPlugin` (Manager.h line 69): inserts the name into
the `requested_plugins` set. -/
def RequestPlugin (name : String) (st : LoaderState) : LoaderState :=
  ⟨st.dynamic_plugins, insert name st.requested_plugins⟩

/-- Modelled from the spec: the candidate list
`Manager::ActivateDynamicPlugins` (declared Manager.h lines 84-99, body
in the absent Manager.cc) works through: with `all = true` every
discovered candidate, with `all = false` only the discovered candidates
previously named via `RequestPlugin`. -/
def candidatesFor (all : Bool) (st : LoaderState) : List String :=
  if all then st.dynamic_plugins.map (fun e => e.1)
  else (st.dynamic_plugins.map (fun e => e.1)).filter
    (fun n => decide (n ∈ st.requested_plugins))

/-- Modelled from the spec: `Manager::ActivateDynamicPlugins` runs the
activation pass over the selected candidates. -/
def ActivateDynamicPlugins (all : Bool) (st : LoaderState)
    (outcome : String → Option (List String)) : ActivationResult :=
  activatePass outcome (candidatesFor all st)

/-- A component, classified by its capability kind tag (the target class
of the `dynamic_cast` in `Manager::Components`). -/
structure Component where
  kind : Nat
  cid : Nat
deriving DecidableEq

/-- An active plugin's exposed component list (`Plugin::Components`). -/
structure PluginData where
  components : List Component
deriving DecidableEq

/-- The `dynamic_cast<T *>` of `Manager::Components` (Manager.h line
472), modelled as a checked kind test: the cast succeeds exactly when
the component's capability tag matches the requested kind. -/
def dynCast (k : Nat) (c : Component) : Option Component :=
  if c.kind = k then some c else none

/-- `Manager::Components` (Manager.h lines 461-480): iterate the active
plugins in order, each plugin's components in order, keep those whose
checked downcast succeeds, appending each at the back of the result. -/
def Components (plugins : List PluginData) (k : Nat) : List Component :=
  plugins.foldl
    (fun result p =>
      p.components.foldl
        (fun acc c =>
          match dynCast k c with
          | some t => acc ++ [t]
          | none => acc)
        result)
    []

/-! ### Hook table invariant -/

/-- A hook table never stores an empty (but non-null) list: the invariant
the presence flag relies on. -/
def goodState (s : Hooks) : Prop := ∀ h, s h ≠ some []

lemma insertReg_ne_nil (pri : Int) (p : Plugin) (l : hook_list) :
    insertReg pri p l ≠ [] := by
  cases l with
  | nil => simp [insertReg]
  | cons a rest =>
    obtain ⟨q, r⟩ := a
    by_cases hc : pri ≤ q <;> simp [insertReg, hc]

lemma goodState_initHooks : goodState initHooks := by
  intro h
  simp [initHooks]

lemma goodState_applyOp {s : Hooks} (hs : goodState s) (op : HookOp) :
    goodState (applyOp s op) := by
  cases op with
  | enable h p pri =>
    intro g
    simp only [applyOp, EnableHook]
    by_cases hg : g = h
    · simp only [if_pos hg]
      intro hcontra
      exact insertReg_ne_nil pri p (hookListOf s h) (Option.some.inj hcontra)
    · simp only [if_neg hg]
      exact hs g
  | disable h p =>
    intro g
    simp only [applyOp, DisableHook]
    by_cases hg : g = h
    · simp only [if_pos hg]
      cases e : s h with
      | none => simp
      | some l =>
        by_cases hnil : l.filter (fun e => decide (e.2 ≠ p)) = []
        · simp [hnil]
        · simp only [hnil, if_neg hnil]
          intro hcontra
          exact hnil (Option.some.inj hcontra)
    · simp only [if_neg hg]
      exact hs g

lemma goodState_runOps (ops : List HookOp) : goodState (runOps ops) := by
  have hgen : ∀ (l : List HookOp) (s : Hooks), goodState s →
      goodState (l.foldl applyOp s) := by
    intro l
    induction l with
    | nil => intro s hs; exact hs
    | cons op l ih =>
      intro s hs
      exact ih (applyOp s op) (goodState_applyOp hs op)
  exact hgen ops initHooks goodState_initHooks

lemma havePlugin_eq_nonempty {s : Hooks} (hs : goodState s) (h : HookType) :
    HavePluginForHook s h = !(hookListOf s h).isEmpty := by
  cases e : s h with
  | none => simp [HavePluginForHook, hookListOf, e]
  | some l =>
    have hne : l ≠ [] := fun hl => hs h (by rw [e, hl])
    cases l with
    | nil => exact absurd rfl hne
    | cons a rest => simp [HavePluginForHook, hookListOf, e]

lemma disableHook_clears {s : Hooks} (h : HookType) (p : Plugin)
    (hall : ∀ e ∈ hookListOf s h, e.2 = p) :
    HavePluginForHook (DisableHook h p s) h = false := by
  simp only [HavePluginForHook, DisableHook, if_pos rfl]
  cases e : s h with
  | none => rfl
  | some l =>
    have hnil : l.filter (fun e => decide (e.2 ≠ p)) = [] := by
      rw [List.filter_eq_nil_iff]
      intro b hb
      have hbp : b.2 = p := hall b (by simp [hookListOf, e, hb])
      simp [hbp]
    show (if l.filter (fun e => decide (e.2 ≠ p)) = [] then (none : Option hook_list)
        else some (l.filter (fun e => decide (e.2 ≠ p)))).isSome = false
    rw [if_pos hnil]
    rfl

/-- Claim C1: for every hook type `T`, `HavePluginForHook T` is true iff
`T`'s registration list is non-empty, in every state reachable by
`EnableHook` / `DisableHook` calls; and after a `DisableHook` call that
removes the last registration, the flag reads false. -/
theorem hook_presence_flag (ops : List HookOp) (h : HookType) :
    HavePluginForHook (runOps ops) h = !(hookListOf (runOps ops) h).isEmpty ∧
    ∀ p : Plugin, (∀ e ∈ hookListOf (runOps ops) h, e.2 = p) →
      HavePluginForHook (DisableHook h p (runOps ops)) h = false := by
  constructor
  · exact havePlugin_eq_nonempty (goodState_runOps ops) h
  · intro p hall
    exact disableHook_clears h p hall

/-- Witness for C1 at a concrete state: one registration for plugin 7 on
the log-write hook, then disabled again. -/
theorem hook_presence_flag_witness :
    HavePluginForHook (runOps [.enable .logWrite 7 5]) .logWrite =
      !(hookListOf (runOps [.enable .logWrite 7 5]) .logWrite).isEmpty ∧
    HavePluginForHook
        (DisableHook .logWrite 7 (runOps [.enable .logWrite 7 5])) .logWrite = false :=
  ⟨(hook_presence_flag [.enable .logWrite 7 5] .logWrite).1,
   (hook_presence_flag [.enable .logWrite 7 5] .logWrite).2 7 (by decide)⟩

/-! ### Registration ordering -/

lemma mem_insertReg {y : Int × Plugin} {pri : Int} {p : Plugin} {l : hook_list} :
    y ∈ insertReg pri p l ↔ y = (pri, p) ∨ y ∈ l := by
  induction l with
  | nil => simp [insertReg]
  | cons a rest ih =>
    obtain ⟨q, r⟩ := a
    by_cases hc : pri ≤ q
    · simp only [insertReg, if_pos hc, List.mem_cons, ih]
      tauto
    · simp only [insertReg, if_neg hc, List.mem_cons]

lemma sorted_insertReg {l : hook_list} (hs : l.Sorted descPri)
    (pri : Int) (p : Plugin) : (insertReg pri p l).Sorted descPri := by
  induction l with
  | nil => simp [insertReg, descPri]
  | cons a rest ih =>
    obtain ⟨q, r⟩ := a
    rw [List.sorted_cons] at hs
    obtain ⟨hhead, htail⟩ := hs
    by_cases hc : pri ≤ q
    · simp only [insertReg, if_pos hc]
      rw [List.sorted_cons]
      refine ⟨?_, ih htail⟩
      intro b hb
      rcases mem_insertReg.mp hb with hb | hb
      · subst hb; exact hc
      · exact hhead b hb
    · simp only [insertReg, if_neg hc]
      rw [List.sorted_cons]
      refine ⟨?_, List.sorted_cons.mpr ⟨hhead, htail⟩⟩
      intro b hb
      rcases List.mem_cons.mp hb with hb | hb
      · subst hb
        exact le_of_lt (lt_of_not_le hc)
      · exact le_trans (hhead b hb) (le_of_lt (lt_of_not_le hc))

lemma filter_insertReg {l : hook_list} (hs : l.Sorted descPri)
    (pri : Int) (p : Plugin) (pq : Int) :
    (insertReg pri p l).filter (fun e => decide (e.1 = pq)) =
      if pq = pri then l.filter (fun e => decide (e.1 = pq)) ++ [(pri, p)]
      else l.filter (fun e => decide (e.1 = pq)) := by
  induction l with
  | nil =>
    by_cases h1 : pq = pri
    · subst h1
      simp [insertReg]
    · have h2 : ¬ (pri = pq) := fun hcon => h1 hcon.symm
      simp [insertReg, h1, h2]
  | cons a rest ih =>
    obtain ⟨q, r⟩ := a
    rw [List.sorted_cons] at hs
    obtain ⟨hhead, htail⟩ := hs
    by_cases hc : pri ≤ q
    · simp only [insertReg, if_pos hc, List.filter_cons]
      rw [ih htail]
      by_cases h1 : pq = pri
      · subst h1
        by_cases h2 : q = pq
        · simp [h2]
        · simp [h2]
      · by_cases h2 : q = pq
        · simp [h1, h2]
        · simp [h1, h2]
    · have hlt : q < pri := lt_of_not_le hc
      by_cases h1 : pq = pri
      · subst h1
        have hnil : ((q, r) :: rest).filter (fun e => decide (e.1 = pq)) = [] := by
          rw [List.filter_eq_nil_iff]
          intro b hb
          rcases List.mem_cons.mp hb with hb | hb
          · subst hb
            intro hcon
            simp at hcon
            omega
          · have hbq : b.1 ≤ q := hhead b hb
            intro hcon
            simp at hcon
            omega
        simp [insertReg, hc, hnil]
      · have h2 : ¬ (pri = pq) := fun hcon => h1 hcon.symm
        simp [insertReg, hc, h1, h2]

lemma sorted_insertFold (calls : List (Int × Plugin)) {l : hook_list}
    (hs : l.Sorted descPri) : (insertFold calls l).Sorted descPri := by
  induction calls generalizing l with
  | nil => exact hs
  | cons c cs ih =>
    rw [insertFold]
    exact ih (sorted_insertReg hs c.1 c.2)

lemma filter_insertFold (calls : List (Int × Plugin)) {l : hook_list}
    (hs : l.Sorted descPri) (pq : Int) :
    (insertFold calls l).filter (fun e => decide (e.1 = pq)) =
      l.filter (fun e => decide (e.1 = pq)) ++
        calls.filter (fun c => decide (c.1 = pq)) := by
  induction calls generalizing l with
  | nil => simp [insertFold]
  | cons c cs ih =>
    rw [insertFold, ih (sorted_insertReg hs c.1 c.2),
      filter_insertReg hs c.1 c.2 pq]
    simp only [List.filter_cons]
    by_cases h1 : pq = c.1
    · simp [h1, List.append_assoc]
    · have h2 : ¬ (c.1 = pq) := fun hcon => h1 hcon.symm
      simp [h1, h2]

lemma hookListOf_enableFold (h : HookType) (calls : List (Int × Plugin)) :
    hookListOf (enableFold h calls) h = insertFold calls [] := by
  have hgen : ∀ (cs : List (Int × Plugin)) (s : Hooks),
      hookListOf (cs.foldl (fun s c => EnableHook h c.2 c.1 s) s) h =
        insertFold cs (hookListOf s h) := by
    intro cs
    induction cs with
    | nil => intro s; rfl
    | cons c cs ih =>
      intro s
      rw [List.foldl_cons, ih, insertFold]
      have : hookListOf (EnableHook h c.2 c.1 s) h =
          insertReg c.1 c.2 (hookListOf s h) := by
        simp [EnableHook, hookListOf]
      rw [this]
  have : hookListOf initHooks h = [] := rfl
  rw [enableFold, hgen calls initHooks, this]

lemma broadcastRun_map_fst {ρ : Type} (resp : Plugin → ρ) (l : List Plugin) :
    (broadcastRun resp l).map (fun e => e.1) = l := by
  induction l with
  | nil => rfl
  | cons p rest ih => simp [broadcastRun, ih]

/-- Claim C2: any sequence of `EnableHook` calls on one hook type yields
a registration list sorted by descending priority, whose equal-priority
registrations appear in first-registered order (each priority class of
the final list equals the same class of the call sequence, in order),
and the broadcast dispatch trace runs the subscribers in exactly the
list order. -/
theorem hook_registration_order (calls : List (Int × Plugin)) (h : HookType) :
    (hookListOf (enableFold h calls) h).Sorted descPri ∧
    (∀ pq : Int, (hookListOf (enableFold h calls) h).filter
        (fun e => decide (e.1 = pq)) =
      calls.filter (fun c => decide (c.1 = pq))) ∧
    ∀ (ρ : Type) (resp : Plugin → ρ),
      (broadcastRun resp (subscribersOf (enableFold h calls) h)).map
          (fun e => e.1) =
        subscribersOf (enableFold h calls) h := by
  refine ⟨?_, ?_, ?_⟩
  · rw [hookListOf_enableFold]
    exact sorted_insertFold calls List.sorted_nil
  · intro pq
    rw [hookListOf_enableFold, filter_insertFold calls List.sorted_nil pq]
    simp
  · intro ρ resp
    exact broadcastRun_map_fst resp (subscribersOf (enableFold h calls) h)

/-! ### Dispatch combination policies -/

lemma firstClaim_append_none {β : Type} (resp : Plugin → Option β)
    {pre : List Plugin} (hpre : ∀ x ∈ pre, resp x = none) (rest : List Plugin) :
    firstClaim resp (pre ++ rest) =
      ((firstClaim resp rest).1, pre ++ (firstClaim resp rest).2) := by
  induction pre with
  | nil => simp [firstClaim]
  | cons a pre ih =>
    have ha : resp a = none := hpre a (List.mem_cons_self a pre)
    have hpre2 : ∀ x ∈ pre, resp x = none :=
      fun x hx => hpre x (List.mem_cons_of_mem a hx)
    simp [firstClaim, ha, ih hpre2]

lemma firstClaim_cons_some {β : Type} (resp : Plugin → Option β)
    {q : Plugin} {b : β} (hq : resp q = some b) (rest : List Plugin) :
    firstClaim resp (q :: rest) = (some b, [q]) := by
  simp [firstClaim, hq]

/-- Claim C3: first-claim-wins dispatch (load-file, call-function,
queue-event policy).  With subscribers in priority order, everyone
before the first claimer is invoked and declines, the claimer's result
is final and nobody after it is invoked; if no subscriber claims, the
dispatch returns the hook's not-handled default after invoking
everyone.  `HookLoadFile` is this dispatch at default `-1`. -/
theorem first_claim_wins (β : Type) (resp : Plugin → Option β) (dflt : β)
    (pre post : List Plugin) (q : Plugin) (b : β) :
    ((∀ x ∈ pre, resp x = none) → resp q = some b →
      dispatchFirstClaim resp dflt (pre ++ q :: post) = (b, pre ++ [q])) ∧
    ((∀ x ∈ pre, resp x = none) →
      dispatchFirstClaim resp dflt pre = (dflt, pre)) ∧
    ∀ (s : Hooks) (respF : Plugin → Option Int),
      HookLoadFile s respF =
        dispatchFirstClaim respF (-1) (subscribersOf s .loadFile) := by
  refine ⟨?_, ?_, ?_⟩
  · intro hpre hq
    rw [dispatchFirstClaim, firstClaim_append_none resp hpre (q :: post),
      firstClaim_cons_some resp hq post]
    rfl
  · intro hpre
    have : firstClaim resp (pre ++ []) =
        ((firstClaim resp []).1, pre ++ (firstClaim resp []).2) :=
      firstClaim_append_none resp hpre []
    rw [List.append_nil] at this
    rw [dispatchFirstClaim, this]
    simp [firstClaim]
  · intro s respF
    rfl

/-- Witness for C3: the spec's 10/5/1 example, plugins 10, 5, 1 standing
for their priorities; only plugin 5 claims (with result 42), so the
dispatch stops after invoking 10 and 5, and on the all-decline list the
default 0 comes back. -/
theorem first_claim_wins_witness :
    dispatchFirstClaim
        (fun p => if p = 5 then some 42 else none) (0 : Int) [10, 5, 1] =
      (42, [10, 5]) ∧
    dispatchFirstClaim
        (fun p => if p = 5 then some 42 else none) (0 : Int) [10, 1] =
      (0, [10, 1]) :=
  ⟨(first_claim_wins Int (fun p => if p = 5 then some 42 else none) 0
      [10] [1] 5 42).1 (by decide) (by decide),
   (first_claim_wins Int (fun p => if p = 5 then some 42 else none) 0
      [10, 1] [] 5 42).2.1 (by decide)⟩

lemma firstVeto_append_true (resp : Plugin → Bool) {pre : List Plugin}
    (hpre : ∀ x ∈ pre, resp x = true) (rest : List Plugin) :
    firstVeto resp (pre ++ rest) =
      ((firstVeto resp rest).1, pre ++ (firstVeto resp rest).2) := by
  induction pre with
  | nil => simp [firstVeto]
  | cons a pre ih =>
    have ha : resp a = true := hpre a (List.mem_cons_self a pre)
    have hpre2 : ∀ x ∈ pre, resp x = true :=
      fun x hx => hpre x (List.mem_cons_of_mem a hx)
    simp [firstVeto, ha, ih hpre2]

/-- Claim C4: first-veto-wins dispatch (log-write, report policy).  With
subscribers in priority order, everyone before the first vetoer
proceeds and is invoked, the first veto makes the result `false` and
nobody after it is invoked; if everyone proceeds the result is `true`
with everyone invoked.  `HookLogWrite` and `HookReporter` are this
dispatch over their subscriber lists. -/
theorem first_veto_wins (resp : Plugin → Bool) (pre post : List Plugin)
    (q : Plugin) :
    ((∀ x ∈ pre, resp x = true) → resp q = false →
      firstVeto resp (pre ++ q :: post) = (false, pre ++ [q])) ∧
    ((∀ x ∈ pre, resp x = true) → firstVeto resp pre = (true, pre)) ∧
    (∀ s : Hooks, HookLogWrite s resp =
      firstVeto resp (subscribersOf s .logWrite)) ∧
    (∀ s : Hooks, HookReporter s resp =
      firstVeto resp (subscribersOf s .reporter)) := by
  refine ⟨?_, ?_, fun s => rfl, fun s => rfl⟩
  · intro hpre hq
    rw [firstVeto_append_true resp hpre (q :: post)]
    simp [firstVeto, hq]
  · intro hpre
    have : firstVeto resp (pre ++ []) =
        ((firstVeto resp []).1, pre ++ (firstVeto resp []).2) :=
      firstVeto_append_true resp hpre []
    rw [List.append_nil] at this
    rw [this]
    simp [firstVeto]

/-- Witness for C4: the spec's proceed/suppress/proceed example —
plugins 1, 2, 3 in priority order, plugin 2 vetoes, so the result is
`false` and plugin 3 is never invoked; with the vetoer absent everyone
proceeds. -/
theorem first_veto_wins_witness :
    firstVeto (fun p => decide (p ≠ 2)) [1, 2, 3] = (false, [1, 2]) ∧
    firstVeto (fun p => decide (p ≠ 2)) [1, 3] = (true, [1, 3]) :=
  ⟨(first_veto_wins (fun p => decide (p ≠ 2)) [1] [3] 2).1
      (by decide) (by decide),
   (first_veto_wins (fun p => decide (p ≠ 2)) [1, 3] [] 2).2.1 (by decide)⟩

/-- Claim C5: broadcast dispatch (update-time, setup-analyzer-tree,
drain-events, object-destroy, log-init policy).  Every subscriber is
invoked, in list (priority) order, each exactly as often as it is
subscribed, and the invocation trace does not depend on any
subscriber's result. -/
theorem broadcast_invokes_all (ρ σ : Type) (s : Hooks)
    (resp : Plugin → ρ) (respB : Plugin → σ) :
    (HookUpdateNetworkTime s resp).map (fun e => e.1) =
      subscribersOf s .updateNetworkTime ∧
    (∀ p : Plugin, ((HookUpdateNetworkTime s resp).map (fun e => e.1)).count p =
      (subscribersOf s .updateNetworkTime).count p) ∧
    ((HookUpdateNetworkTime s resp).map (fun e => e.1) =
      (HookUpdateNetworkTime s respB).map (fun e => e.1)) ∧
    (HookDrainEvents s resp).map (fun e => e.1) =
      subscribersOf s .drainEvents := by
  refine ⟨broadcastRun_map_fst resp _, ?_, ?_, broadcastRun_map_fst resp _⟩
  · intro p
    rw [HookUpdateNetworkTime, broadcastRun_map_fst resp]
  · rw [HookUpdateNetworkTime, HookUpdateNetworkTime,
      broadcastRun_map_fst resp, broadcastRun_map_fst respB]

/-! ### No-subscriber fast path -/

/-- Claim C6: when a hook type has no enabled subscriber (in any state
reachable by `EnableHook` / `DisableHook` calls), both entry-point
macros return the hook's default outcome without invoking any
subscriber callback and without running the `MetaHookPre` /
`MetaHookPost` pair. -/
theorem no_subscriber_fast_path (ops : List HookOp) (h : HookType)
    (β ρ : Type) (resp : Plugin → Option β) (respB : Plugin → ρ) (dflt : β) :
    hookListOf (runOps ops) h = [] →
      pluginHookWithResult (runOps ops) h resp dflt = ⟨dflt, [], 0, 0⟩ ∧
      pluginHookVoid (runOps ops) h respB = ([], 0, 0) := by
  intro hemp
  have hnone : runOps ops h = none := by
    cases e : runOps ops h with
    | none => rfl
    | some l =>
      exfalso
      apply goodState_runOps ops h
      rw [hookListOf, e] at hemp
      simp at hemp
      rw [e, hemp]
  constructor
  · simp [pluginHookWithResult, HavePluginForHook, hnone]
  · simp [pluginHookVoid, HavePluginForHook, hnone]

/-- Witness for C6: the empty hook table, load-file hook. -/
theorem no_subscriber_fast_path_witness :
    pluginHookWithResult (runOps []) .loadFile
        (fun _ => (none : Option Int)) 0 = ⟨0, [], 0, 0⟩ ∧
    pluginHookVoid (runOps []) .loadFile (fun _ => ()) = ([], 0, 0) :=
  no_subscriber_fast_path [] .loadFile Int Unit
    (fun _ => none) (fun _ => ()) 0 (by decide)

/-! ### Dynamic-plugin activation -/

/-- Claim C7: during one activation pass, the first failing candidate
stops the pass: the candidates before it all loaded, it was attempted,
no candidate after it is attempted, its error strings are reported, and
the pass reports failure to the caller. -/
theorem activation_stops_on_failure (outcome : String → Option (List String))
    (pre post : List String) (f : String) (errs : List String) :
    (∀ n ∈ pre, outcome n = none) → outcome f = some errs →
      activatePass outcome (pre ++ f :: post) = ⟨pre ++ [f], errs, false⟩ := by
  intro hpre hf
  induction pre with
  | nil => simp [activatePass, hf]
  | cons a pre ih =>
    have ha : outcome a = none := hpre a (List.mem_cons_self a pre)
    have hpre2 : ∀ n ∈ pre, outcome n = none :=
      fun n hn => hpre n (List.mem_cons_of_mem a hn)
    simp [activatePass, ha, ih hpre2]

/-- Witness for C7: candidates a, b, c where b fails to load — a loads,
b is attempted and its error reported, c is never attempted. -/
theorem activation_stops_on_failure_witness :
    activatePass
        (fun n => if n = "b" then some ["cannot load b"] else none)
        (["a"] ++ "b" :: ["c"]) =
      ⟨["a", "b"], ["cannot load b"], false⟩ :=
  activation_stops_on_failure
    (fun n => if n = "b" then some ["cannot load b"] else none)
    ["a"] ["c"] "b" ["cannot load b"] (by decide) (by decide)

lemma activatePass_all_ok (outcome : String → Option (List String))
    (hall : ∀ n, outcome n = none) (cands : List String) :
    activatePass outcome cands = ⟨cands, [], true⟩ := by
  induction cands with
  | nil => rfl
  | cons a cs ih => simp [activatePass, hall a, ih]

/-- Claim C8: `ActivateDynamicPlugins true` works through every
discovered candidate, `ActivateDynamicPlugins false` works through
exactly the discovered candidates previously named via `RequestPlugin`
(even when discovery found more); when every load succeeds, the
attempted set is exactly that candidate list and the pass succeeds. -/
theorem activate_all_vs_requested (st : LoaderState)
    (outcome : String → Option (List String)) (all : Bool) :
    candidatesFor true st = st.dynamic_plugins.map (fun e => e.1) ∧
    (∀ n : String, n ∈ candidatesFor false st ↔
      n ∈ st.dynamic_plugins.map (fun e => e.1) ∧
        n ∈ st.requested_plugins) ∧
    ((∀ n, outcome n = none) →
      (ActivateDynamicPlugins all st outcome).attempted =
          candidatesFor all st ∧
        (ActivateDynamicPlugins all st outcome).ok = true) := by
  refine ⟨rfl, ?_, ?_⟩
  · intro n
    simp [candidatesFor, List.mem_filter]
  · intro hall
    rw [ActivateDynamicPlugins, activatePass_all_ok outcome hall]
    exact ⟨rfl, rfl⟩

/-- Witness for C8: two discovered candidates a, b with only a
requested; in restricted mode only a is attempted and activation
succeeds. -/
theorem activate_all_vs_requested_witness :
    (ActivateDynamicPlugins false ⟨[("a", "dir1"), ("b", "dir2")], {"a"}⟩
        (fun _ => none)).attempted =
      candidatesFor false ⟨[("a", "dir1"), ("b", "dir2")], {"a"}⟩ ∧
    (ActivateDynamicPlugins false ⟨[("a", "dir1"), ("b", "dir2")], {"a"}⟩
        (fun _ => none)).ok = true :=
  (activate_all_vs_requested ⟨[("a", "dir1"), ("b", "dir2")], {"a"}⟩
    (fun _ => none) false).2.2 (fun _ => rfl)

/-! ### Component query -/

lemma components_inner (k : Nat) (cs : List Component) (acc : List Component) :
    cs.foldl
        (fun acc c =>
          match dynCast k c with
          | some t => acc ++ [t]
          | none => acc)
        acc =
      acc ++ cs.filter (fun c => decide (c.kind = k)) := by
  induction cs generalizing acc with
  | nil => simp
  | cons c cs ih =>
    rw [List.foldl_cons, ih]
    by_cases hk : c.kind = k
    · simp [dynCast, hk, List.filter_cons, List.append_assoc]
    · simp [dynCast, hk, List.filter_cons]

lemma components_eq (plugins : List PluginData) (k : Nat) :
    Components plugins k =
      (plugins.map
        (fun p => p.components.filter (fun c => decide (c.kind = k)))).flatten := by
  have hgen : ∀ (ps : List PluginData) (acc : List Component),
      ps.foldl
          (fun result p =>
            p.components.foldl
              (fun acc c =>
                match dynCast k c with
                | some t => acc ++ [t]
                | none => acc)
              result)
          acc =
        acc ++ (ps.map
          (fun p => p.components.filter (fun c => decide (c.kind = k)))).flatten := by
    intro ps
    induction ps with
    | nil => intro acc; simp
    | cons p ps ih =>
      intro acc
      rw [List.foldl_cons, components_inner k p.components acc, ih]
      simp [List.append_assoc]
  rw [Components, hgen plugins []]
  simp

/-- Claim C9: the component query returns, in extension-then-component
order, exactly the components of the listed plugins whose checked
downcast to kind `k` succeeds, and the empty list when none match. -/
theorem components_of_kind (plugins : List PluginData) (k : Nat) :
    Components plugins k =
      (plugins.map
        (fun p => p.components.filter (fun c => decide (c.kind = k)))).flatten ∧
    (∀ c : Component, c ∈ Components plugins k ↔
      ∃ p ∈ plugins, c ∈ p.components ∧ c.kind = k) ∧
    ((∀ p ∈ plugins, ∀ c ∈ p.components, c.kind ≠ k) →
      Components plugins k = []) := by
  have hmem : ∀ c : Component, c ∈ Components plugins k ↔
      ∃ p ∈ plugins, c ∈ p.components ∧ c.kind = k := by
    intro c
    rw [components_eq plugins k]
    simp only [List.mem_flatten, List.mem_map]
    constructor
    · rintro ⟨l, ⟨p, hp, rfl⟩, hcl⟩
      rcases List.mem_filter.mp hcl with ⟨hcp, hck⟩
      exact ⟨p, hp, hcp, by simpa using hck⟩
    · rintro ⟨p, hp, hcp, hck⟩
      exact ⟨p.components.filter (fun c => decide (c.kind = k)), ⟨p, hp, rfl⟩,
        List.mem_filter.mpr ⟨hcp, by simpa using hck⟩⟩
  refine ⟨components_eq plugins k, hmem, ?_⟩
  intro hall
  rw [List.eq_nil_iff_forall_not_mem]
  intro c hc
  rcases (hmem c).mp hc with ⟨p, hp, hcp, hck⟩
  exact hall p hp c hcp hck

/-- Witness for C9: plugins exposing components of kinds 1 and 2 only;
the query for kind 3 is empty. -/
theorem components_of_kind_witness :
    Components [⟨[⟨1, 0⟩, ⟨2, 1⟩]⟩, ⟨[⟨2, 2⟩]⟩] 3 = [] :=
  (components_of_kind [⟨[⟨1, 0⟩, ⟨2, 1⟩]⟩, ⟨[⟨2, 2⟩]⟩] 3).2.2 (by decide)

/-! ### Plugin activation requests -/

/-- Claim C10: `RequestPlugin` is idempotent and order-insensitive on
the requested-plugin set — duplicate requests are deduplicated, and two
requests commute. -/
theorem request_plugin_idempotent_comm (a b : String) (st : LoaderState) :
    RequestPlugin a (RequestPlugin a st) = RequestPlugin a st ∧
    RequestPlugin a (RequestPlugin b st) = RequestPlugin b (RequestPlugin a st) := by
  constructor
  · show LoaderState.mk st.dynamic_plugins (insert a (insert a st.requested_plugins)) =
      LoaderState.mk st.dynamic_plugins (insert a st.requested_plugins)
    exact congrArg (LoaderState.mk st.dynamic_plugins)
      (Finset.insert_idem a st.requested_plugins)
  · show LoaderState.mk st.dynamic_plugins (insert a (insert b st.requested_plugins)) =
      LoaderState.mk st.dynamic_plugins (insert b (insert a st.requested_plugins))
    exact congrArg (LoaderState.mk st.dynamic_plugins)
      (Finset.Insert.comm a b st.requested_plugins)

end ZeekPlugin
